import Mathlib

/-!
Shallow embedding of `wayback_recon.c` (CDX recon tool) together with proofs
about its core pipeline: method inference, URL deduplication, parameter
extraction, pagination with resume keys, sorting and report serialization.

C strings are modelled as `String` (or `List Char` for the character-level
scanning routines); nullable `char *` values are modelled as `Option String`.
-/

/-- Model of a prefix test: `patStarts pat s` is true when `pat` occurs at the
start of `s`, comparing characters one by one exactly as the byte loop inside
`strstr` would. -/
def patStarts : List Char → List Char → Bool
  | [], _ => true
  | _ :: _, [] => false
  | p :: ps, c :: cs => p == c && patStarts ps cs

/-- Model of C `strstr (hay, pat) != NULL`: the pattern occurs (contiguously)
somewhere in the haystack. -/
def strstrB : List Char → List Char → Bool
  | [], pat => patStarts pat []
  | c :: cs, pat => patStarts pat (c :: cs) || strstrB cs pat

/-- Case-sensitive substring containment on `String`, the form in which
`strstr` is used throughout `infer_method`. -/
def containsStr (s pat : String) : Bool := strstrB s.data pat.data

/-- Model of the C expression `mimetype ? mimetype : ""` in `infer_method`:
a null mimetype is replaced by the empty string. -/
def mimeStr : Option String → String
  | none => ""
  | some s => s

/-- Model of the `has_post` signal computed by `infer_method`
(src/wayback_recon.c lines 142-145): the URL contains one of nine keywords or
the mimetype contains one of three keywords. -/
def has_post_signal (u m : String) : Bool :=
  containsStr u "login" || containsStr u "submit" || containsStr u "upload" ||
  containsStr u "create" || containsStr u "update" || containsStr u "delete" ||
  containsStr u "api" || containsStr u "json" || containsStr u "graphql" ||
  containsStr m "json" || containsStr m "xml" || containsStr m "form"

/-- Model of `infer_method` (src/wayback_recon.c lines 138-153). A null URL
yields "GET"; otherwise the keyword signal selects GET, and the PUT / DELETE /
POST chain runs in source order. -/
def infer_method (url mimetype : Option String) : String :=
  match url with
  | none => "GET"
  | some u =>
    if has_post_signal u (mimeStr mimetype) then
      if containsStr u "update" || containsStr u "patch" then "PUT"
      else if containsStr u "delete" || containsStr u "remove" then "DELETE"
      else "POST"
    else "GET"

/-- Restatement of the method-inference heuristic in the words of the spec
(section 4.4): GET when the URL contains none of the nine keywords and the
mimetype hint contains none of its three keywords; otherwise PUT before
DELETE before POST. Used only to compare against `infer_method`. -/
def inferMethodSpec (url mime : String) : String :=
  if !containsStr url "login" && !containsStr url "submit" && !containsStr url "upload" &&
     !containsStr url "create" && !containsStr url "update" && !containsStr url "delete" &&
     !containsStr url "api" && !containsStr url "json" && !containsStr url "graphql" &&
     !containsStr mime "json" && !containsStr mime "xml" && !containsStr mime "form"
  then "GET"
  else if containsStr url "update" || containsStr url "patch" then "PUT"
  else if containsStr url "delete" || containsStr url "remove" then "DELETE"
  else "POST"

/-- Helper: flipping an `if` on a boolean condition. -/
theorem bool_if_flip {α : Sort _} (b : Bool) (x y : α) :
    (if b = true then x else y) = (if (!b) = true then y else x) := by
  cases b <;> simp

example : infer_method (some "https://x.com/api/create") (some "") = "POST" := by decide
example : infer_method (some "https://x.com/update/1") (some "") = "PUT" := by decide
example : infer_method (some "https://x.com/delete-account") (some "") = "DELETE" := by decide
example : infer_method (some "https://x.com/home") (some "") = "GET" := by decide

/-- C1: method inference is a deterministic, stateless function of the URL
string and optional mimetype hint; if the URL contains none of the keywords
login, submit, upload, create, update, delete, api, json, graphql and the
mimetype contains none of json, xml, form, the result is GET; otherwise PUT
if the URL contains "update" or "patch", else DELETE if it contains "delete"
or "remove", else POST, with case-sensitive substring checks and PUT
precedence over DELETE over POST. -/
theorem infer_method_matches_spec (u m : String) :
    infer_method (some u) (some m) = inferMethodSpec u m := by
  simp only [infer_method, inferMethodSpec, mimeStr, has_post_signal, ← Bool.not_or]
  rw [bool_if_flip]

/-- C9: method inference is total and closed over the method enum: every
input, including a null URL or a null mimetype, yields one of exactly
"GET", "POST", "PUT", "DELETE"; a null URL always yields "GET" and a null
mimetype is treated as the empty string. -/
theorem infer_method_total_enum (url mimetype : Option String) (u : String) :
    (infer_method url mimetype = "GET" ∨ infer_method url mimetype = "POST" ∨
     infer_method url mimetype = "PUT" ∨ infer_method url mimetype = "DELETE")
  ∧ infer_method none mimetype = "GET"
  ∧ infer_method (some u) none = infer_method (some u) (some "") := by
  refine ⟨?_, rfl, rfl⟩
  cases url with
  | none => exact Or.inl rfl
  | some v =>
    simp only [infer_method]
    split
    · split
      · exact Or.inr (Or.inr (Or.inl rfl))
      · split
        · exact Or.inr (Or.inr (Or.inr rfl))
        · exact Or.inr (Or.inl rfl)
    · exact Or.inl rfl

/-- Model of `add_url` (src/wayback_recon.c lines 118-136). The URL set is the
list of strings stored so far (`set->urls`, in insertion order); the function
returns the C result (1 as `true`, 0 as `false`) together with the updated
set. A null or empty URL is rejected without recording; a URL already present
(by exact `strcmp` equality) is rejected; otherwise it is appended. -/
def add_url (set : List String) (url : Option String) : Bool × List String :=
  match url with
  | none => (false, set)
  | some u =>
    if u = "" then (false, set)
    else if u ∈ set then (false, set)
    else (true, set ++ [u])

/-- Constant `MAX_PARAM_LEN` from src/wayback_recon.c line 26. -/
def MAX_PARAM_LEN : Nat := 512

/-- Model of locating `strchr (s, c)` and taking everything after the first
occurrence: `afterChar c s` is `none` when `c` does not occur in `s`, and
`some rest` when `rest` is the text after the first occurrence. -/
def afterChar (c : Char) : List Char → Option (List Char)
  | [] => none
  | d :: ds => if d = c then some ds else afterChar c ds

/-- Model of cutting a token at its first `=` (the C code writes a NUL over
the first `=`, so the parameter name is the text before it, or the whole
token when there is no `=`). -/
def takeBeforeChar (c : Char) : List Char → List Char
  | [] => []
  | d :: ds => if d = c then [] else d :: takeBeforeChar c ds

/-- Helper for `splitAmp`: walks the buffer accumulating the current token in
reverse, emitting it at each delimiter run, exactly as repeated `safe_strtok`
calls would produce tokens. -/
def splitAmpAux : List Char → List Char → List (List Char)
  | [], acc => if acc = [] then [] else [acc.reverse]
  | c :: cs, acc =>
    if c = '&' then
      if acc = [] then splitAmpAux cs []
      else acc.reverse :: splitAmpAux cs []
    else splitAmpAux cs (c :: acc)

/-- Model of the `safe_strtok (query, "&", ...)` loop
(src/wayback_recon.c lines 193-202 and 301-313): the sequence of tokens is
the list of maximal non-empty runs of non-`&` characters, in order. -/
def splitAmp (s : List Char) : List (List Char) := splitAmpAux s []

/-- Model of the parameter extraction block of `process_domain`
(src/wayback_recon.c lines 294-314): no `?` means no parameters; otherwise
the text after the first `?` is copied by `safe_strncpy` into a
`MAX_PARAM_LEN` buffer (so at most `MAX_PARAM_LEN - 1` characters survive),
split on `&`, each token cut at its first `=`, and empty names dropped. -/
def extract_params_chars (url : List Char) : List (List Char) :=
  match afterChar '?' url with
  | none => []
  | some rest =>
    let query := rest.take (MAX_PARAM_LEN - 1)
    ((splitAmp query).map (takeBeforeChar '=')).filter (fun t => t ≠ [])

/-- String-level wrapper of `extract_params_chars`, the form stored in an
endpoint record. -/
def extract_params (url : String) : List String :=
  (extract_params_chars url.data).map (fun l => String.mk l)

example : extract_params "https://x.com/login?user=a&pass=b&user=c" = ["user", "pass", "user"] := by decide
example : extract_params "https://x.com/login" = [] := by decide
example : extract_params "https://x.com/a?x=1&&=2&y" = ["x", "y"] := by decide

/-- Helper: the accumulator form of `splitAmp` against the library splitter.
`splitAmpAux s acc` produces the non-empty pieces of `splitOnP` after the
pending accumulator is prepended to the first piece. -/
theorem splitAmpAux_eq_splitOnP (s acc : List Char) :
    splitAmpAux s acc =
      ((s.splitOnP (fun c => c == '&')).modifyHead (fun t => acc.reverse ++ t)).filter
        (fun t => t ≠ []) := by
  induction s generalizing acc with
  | nil =>
    by_cases h : acc = [] <;>
      simp [splitAmpAux, List.splitOnP_nil, List.filter, h]
  | cons c cs ih =>
    by_cases hc : c = '&'
    · subst hc
      have hbase : splitAmpAux cs [] =
          (cs.splitOnP (fun c => c == '&')).filter (fun t => t ≠ []) := by
        rw [ih []]
        congr 1
        cases cs.splitOnP (fun c => c == '&') <;> simp
      simp only [List.splitOnP_cons, beq_self_eq_true, if_true, List.modifyHead_cons,
        List.append_nil]
      by_cases h : acc = []
      · subst h
        simp [splitAmpAux, hbase, List.filter]
      · have hrev : acc.reverse ≠ [] := by simpa using h
        simp [splitAmpAux, h, hbase, List.filter_cons, hrev]
    · have hp : (c == '&') = false := by simpa using hc
      simp only [splitAmpAux, if_neg hc, List.splitOnP_cons, hp, Bool.false_eq_true,
        if_false, List.modifyHead_modifyHead]
      rw [ih (c :: acc)]
      congr 2
      funext t
      simp [Function.comp]

/-- Helper: the token sequence produced by the `safe_strtok` loop is the
library splitter's output with empty pieces removed. -/
theorem splitAmp_eq_splitOnP (s : List Char) :
    splitAmp s = (s.splitOnP (fun c => c == '&')).filter (fun t => t ≠ []) := by
  rw [splitAmp, splitAmpAux_eq_splitOnP]
  congr 1
  cases s.splitOnP (fun c => c == '&') <;> simp

/-- C4: parameter extraction returns the empty sequence when the URL has no
`?`; otherwise it takes the text after the first `?` truncated to the bounded
working buffer, splits it on `&`, keeps for each non-empty token the part
before the first `=`, drops empty names, preserves token order, and does not
deduplicate repeated names; the given example URL yields exactly
["user", "pass", "user"], and re-extracting from the same string yields the
same list. -/
theorem extract_params_spec (url : String) (rest : List Char) :
    (afterChar '?' url.data = none → extract_params url = [])
  ∧ (afterChar '?' url.data = some rest →
      extract_params_chars url.data =
        (((((rest.take (MAX_PARAM_LEN - 1)).splitOnP (fun c => c == '&')).filter
            (fun t => t ≠ [])).map (takeBeforeChar '=')).filter (fun t => t ≠ [])))
  ∧ extract_params "https://x.com/login?user=a&pass=b&user=c" = ["user", "pass", "user"]
  ∧ extract_params url = extract_params url := by
  refine ⟨?_, ?_, by decide, rfl⟩
  · intro h
    simp [extract_params, extract_params_chars, h]
  · intro h
    simp [extract_params_chars, h, splitAmp_eq_splitOnP]

/-- Witness for C4 at a concrete URL with a query string. -/
theorem extract_params_spec_witness :
    afterChar '?' ("https://x.com/a?x=1&y=2".data) = some ("x=1&y=2".data)
  ∧ extract_params_chars "https://x.com/a?x=1&y=2".data =
      ((((("x=1&y=2".data).take (MAX_PARAM_LEN - 1)).splitOnP (fun c => c == '&')).filter
          (fun t => t ≠ [])).map (takeBeforeChar '=')).filter (fun t => t ≠ []) :=
  ⟨by decide, (extract_params_spec "https://x.com/a?x=1&y=2" ("x=1&y=2".data)).2.1 (by decide)⟩

/-- Helper: cutting at a character that does not occur leaves the token
unchanged. -/
theorem takeBeforeChar_of_not_mem (k : Char) (s : List Char) (h : ∀ c ∈ s, c ≠ k) :
    takeBeforeChar k s = s := by
  induction s with
  | nil => rfl
  | cons d ds ih =>
    have hd : d ≠ k := h d (by simp)
    simp [takeBeforeChar, hd, ih (fun c hc => h c (by simp [hc]))]

/-- Helper: scanning for a character that sits at the head succeeds at once. -/
theorem afterChar_cons_self (c : Char) (l : List Char) : afterChar c (c :: l) = some l := by
  simp [afterChar]

/-- Helper: taking an initial segment of a replicated list. -/
theorem take_replicate_of_le {α : Type} {a : α} :
    ∀ n m : Nat, n ≤ m → (List.replicate m a).take n = List.replicate n a
  | 0, _, _ => by simp
  | n + 1, m + 1, h => by
    rw [List.replicate_succ, List.take_succ_cons,
      take_replicate_of_le n m (Nat.le_of_succ_le_succ h), List.replicate_succ]
  | n + 1, 0, h => by omega

/-- C10: the bounded working buffer for parameter extraction is exactly 512
bytes (`MAX_PARAM_LEN`), so only the first 511 characters after the first `?`
are ever considered: two URLs whose queries agree on those 511 characters
extract identical parameters, and a long name straddling the cut-off is
truncated at that boundary (a 600-character query collapses to its first 511
characters). -/
theorem param_buffer_bound (url₁ url₂ : String) (r₁ r₂ : List Char)
    (h₁ : afterChar '?' url₁.data = some r₁) (h₂ : afterChar '?' url₂.data = some r₂)
    (h : r₁.take (MAX_PARAM_LEN - 1) = r₂.take (MAX_PARAM_LEN - 1)) :
    MAX_PARAM_LEN = 512
  ∧ extract_params url₁ = extract_params url₂
  ∧ extract_params_chars ('?' :: List.replicate 600 'a') = [List.replicate 511 'a'] := by
  refine ⟨rfl, ?_, ?_⟩
  · simp only [extract_params, extract_params_chars, h₁, h₂, h]
  · have h1 : afterChar '?' ('?' :: List.replicate 600 'a') = some (List.replicate 600 'a') :=
      afterChar_cons_self '?' _
    have h2 : (List.replicate 600 'a').take (MAX_PARAM_LEN - 1) = List.replicate 511 'a' := by
      have : MAX_PARAM_LEN - 1 = 511 := rfl
      rw [this, take_replicate_of_le 511 600 (by omega)]
    have hne : List.replicate 511 'a' ≠ [] := by
      intro hcon
      have hlen := congrArg List.length hcon
      simp only [List.length_replicate, List.length_nil] at hlen
      omega
    have h3 : splitAmp (List.replicate 511 'a') = [List.replicate 511 'a'] := by
      rw [splitAmp_eq_splitOnP, List.splitOnP_eq_single]
      · rw [List.filter_cons, if_pos]
        · rw [List.filter_nil]
        · rw [decide_eq_true_eq]
          exact hne
      · intro x hx
        rw [List.eq_of_mem_replicate hx]
        decide
    have h4 : takeBeforeChar '=' (List.replicate 511 'a') = List.replicate 511 'a' := by
      refine takeBeforeChar_of_not_mem _ _ (fun c hc => ?_)
      rw [List.eq_of_mem_replicate hc]
      decide
    simp only [extract_params_chars, h1, h2, h3]
    rw [List.map_cons, List.map_nil, h4, List.filter_cons, if_pos]
    · rw [List.filter_nil]
    · rw [decide_eq_true_eq]
      exact hne

/-- Witness for C10 at two concrete URLs sharing a short query. -/
theorem param_buffer_bound_witness :
    afterChar '?' "u?abc".data = some "abc".data
  ∧ extract_params "u?abc" = extract_params "v?abc" :=
  ⟨by decide,
   (param_buffer_bound "u?abc" "v?abc" "abc".data "abc".data (by decide) (by decide) rfl).2.1⟩

/-- Endpoint record (src/wayback_recon.c lines 44-49): URL, inferred method,
and ordered parameter names. -/
structure Endpoint where
  url : String
  method : String
  params : List String
deriving DecidableEq

/-- Model of C `strcmp` as a three-way comparison on character lists, byte by
byte (characters compared through their code points). -/
def strcmpO : List Char → List Char → Ordering
  | [], [] => .eq
  | [], _ :: _ => .lt
  | _ :: _, [] => .gt
  | a :: as, b :: bs =>
    if a.toNat < b.toNat then .lt
    else if b.toNat < a.toNat then .gt
    else strcmpO as bs

/-- Model of `compare_endpoints_asc` (src/wayback_recon.c lines 155-159):
`strcmp` on the two URLs. -/
def compare_endpoints_asc (a b : Endpoint) : Ordering := strcmpO a.url.data b.url.data

/-- Model of `compare_endpoints_desc` (src/wayback_recon.c lines 161-165):
`strcmp` with the arguments exchanged. -/
def compare_endpoints_desc (a b : Endpoint) : Ordering := strcmpO b.url.data a.url.data

/-- Model of the final `qsort` call of `process_domain`
(src/wayback_recon.c lines 359-362): sort the collected endpoints with the
comparator selected by the sort configuration. `qsort` guarantees only a
sorted permutation, which a sorting algorithm models exactly. -/
def endpointLe (sort_desc : Bool) (a b : Endpoint) : Bool :=
  match sort_desc with
  | true => !(compare_endpoints_desc a b == Ordering.gt)
  | false => !(compare_endpoints_asc a b == Ordering.gt)

def sortEndpoints (sort_desc : Bool) (es : List Endpoint) : List Endpoint :=
  es.mergeSort (endpointLe sort_desc)

/-- Helper: characters with equal code points are equal. -/
theorem charToNat_inj {a b : Char} (h : a.toNat = b.toNat) : a = b :=
  Char.eq_of_val_eq (UInt32.eq_of_toBitVec_eq (BitVec.eq_of_toNat_eq h))

/-- Helper: `strcmpO` answers `eq` exactly on equal lists. -/
theorem strcmpO_eq_iff : ∀ a b : List Char, strcmpO a b = .eq ↔ a = b
  | [], [] => by simp [strcmpO]
  | [], _ :: _ => by simp [strcmpO]
  | _ :: _, [] => by simp [strcmpO]
  | a :: as, b :: bs => by
    simp only [strcmpO]
    rcases Nat.lt_trichotomy a.toNat b.toNat with h | h | h
    · rw [if_pos h]
      constructor
      · intro hc; cases hc
      · intro hc
        rw [List.cons.injEq] at hc
        rw [hc.1] at h
        omega
    · have hab : a = b := charToNat_inj h
      rw [if_neg (by omega), if_neg (by omega), strcmpO_eq_iff as bs]
      simp [hab]
    · rw [if_neg (by omega), if_pos h]
      constructor
      · intro hc; cases hc
      · intro hc
        rw [List.cons.injEq] at hc
        rw [hc.1] at h
        omega

/-- Helper: exchanging the arguments of `strcmpO` swaps the answer. -/
theorem strcmpO_swap : ∀ a b : List Char, strcmpO b a = (strcmpO a b).swap
  | [], [] => rfl
  | [], _ :: _ => rfl
  | _ :: _, [] => rfl
  | a :: as, b :: bs => by
    simp only [strcmpO]
    rcases Nat.lt_trichotomy a.toNat b.toNat with h | h | h
    · rw [if_pos h, if_neg (by omega), if_pos h]
      rfl
    · rw [if_neg (by omega), if_neg (by omega), if_neg (by omega), if_neg (by omega)]
      exact strcmpO_swap as bs
    · rw [if_pos h, if_neg (by omega), if_pos h]
      rfl

/-- Helper: unfolding of a non-`gt` head comparison. -/
theorem strcmpO_cons_le {a b : Char} {as bs : List Char}
    (h : strcmpO (a :: as) (b :: bs) ≠ .gt) :
    a.toNat < b.toNat ∨ (a.toNat = b.toNat ∧ strcmpO as bs ≠ .gt) := by
  by_cases h1 : a.toNat < b.toNat
  · exact Or.inl h1
  by_cases h2 : b.toNat < a.toNat
  · exact absurd (by simp [strcmpO, if_neg h1, if_pos h2]) h
  · refine Or.inr ⟨by omega, fun hg => h ?_⟩
    simp [strcmpO, if_neg h1, if_neg h2, hg]

/-- Helper: the non-strict order induced by `strcmpO` is transitive. -/
theorem strcmpO_le_trans : ∀ a b c : List Char,
    strcmpO a b ≠ .gt → strcmpO b c ≠ .gt → strcmpO a c ≠ .gt
  | [], b, c, _, _ => by cases c <;> simp [strcmpO]
  | _ :: _, [], _, h₁, _ => by simp [strcmpO] at h₁
  | _ :: _, _ :: _, [], _, h₂ => by simp [strcmpO] at h₂
  | a :: as, b :: bs, c :: cs, h₁, h₂ => by
    rcases strcmpO_cons_le h₁ with hab | ⟨hab, tab⟩ <;>
      rcases strcmpO_cons_le h₂ with hbc | ⟨hbc, tbc⟩
    · simp [strcmpO, if_pos (show a.toNat < c.toNat by omega)]
    · simp [strcmpO, if_pos (show a.toNat < c.toNat by omega)]
    · simp [strcmpO, if_pos (show a.toNat < c.toNat by omega)]
    · rw [show strcmpO (a :: as) (c :: cs) =
          strcmpO as cs by simp [strcmpO, if_neg (by omega : ¬a.toNat < c.toNat),
            if_neg (by omega : ¬c.toNat < a.toNat)]]
      exact strcmpO_le_trans as bs cs tab tbc

/-- Helper: the non-strict order induced by `strcmpO` is total. -/
theorem strcmpO_le_total (a b : List Char) : strcmpO a b ≠ .gt ∨ strcmpO b a ≠ .gt := by
  cases h : strcmpO a b with
  | lt => exact Or.inl (by decide)
  | eq => exact Or.inl (by decide)
  | gt =>
    refine Or.inr ?_
    rw [strcmpO_swap, h]
    decide

/-- Helper: the boolean comparator used by `sortEndpoints`, read back as a
proposition. -/
theorem not_beq_gt_iff (o : Ordering) : (!(o == Ordering.gt)) = true ↔ o ≠ Ordering.gt := by
  cases o <;> decide

/-- Helper: a non-`gt` comparison between distinct URLs is strictly `lt`. -/
theorem strcmpO_ne_gt_strict {x y : String} (h : strcmpO x.data y.data ≠ .gt) (hne : x ≠ y) :
    strcmpO x.data y.data = .lt := by
  cases o : strcmpO x.data y.data with
  | lt => rfl
  | eq => exact absurd (String.ext ((strcmpO_eq_iff _ _).mp o)) hne
  | gt => exact absurd o h

/-- Helper: the sorted output of `sortEndpoints` is a permutation of its
input. -/
theorem sortEndpoints_perm (sort_desc : Bool) (es : List Endpoint) :
    (sortEndpoints sort_desc es).Perm es :=
  List.mergeSort_perm es _

/-- Helper: the comparator passed to merge sort is transitive. -/
theorem endpointLe_trans (d : Bool) (a b c : Endpoint) :
    endpointLe d a b = true → endpointLe d b c = true → endpointLe d a c = true := by
  cases d <;>
    simp only [endpointLe, not_beq_gt_iff, compare_endpoints_asc, compare_endpoints_desc] <;>
    intro hab hbc
  · exact strcmpO_le_trans _ _ _ hab hbc
  · exact strcmpO_le_trans _ _ _ hbc hab

/-- Helper: the comparator passed to merge sort is total. -/
theorem endpointLe_total (d : Bool) (a b : Endpoint) :
    (endpointLe d a b || endpointLe d b a) = true := by
  cases d <;>
    simp only [endpointLe, Bool.or_eq_true, not_beq_gt_iff,
      compare_endpoints_asc, compare_endpoints_desc]
  · exact strcmpO_le_total _ _
  · exact (strcmpO_le_total _ _).symm.imp id id

/-- Helper: the output of `sortEndpoints` is pairwise non-decreasing for the
selected comparator. -/
theorem sortEndpoints_pairwise (d : Bool) (es : List Endpoint) :
    (sortEndpoints d es).Pairwise (fun a b => endpointLe d a b = true) :=
  List.sorted_mergeSort (endpointLe_trans d) (endpointLe_total d) es

/-- Helper: the ascending comparator accepts exactly non-`gt` comparisons. -/
theorem endpointLe_false_iff (a b : Endpoint) :
    endpointLe false a b = true ↔ strcmpO a.url.data b.url.data ≠ Ordering.gt := by
  rw [show endpointLe false a b = !(compare_endpoints_asc a b == Ordering.gt) from rfl,
    not_beq_gt_iff, compare_endpoints_asc]

/-- Helper: the descending comparator accepts exactly non-`gt` exchanged
comparisons. -/
theorem endpointLe_true_iff (a b : Endpoint) :
    endpointLe true a b = true ↔ strcmpO b.url.data a.url.data ≠ Ordering.gt := by
  rw [show endpointLe true a b = !(compare_endpoints_desc a b == Ordering.gt) from rfl,
    not_beq_gt_iff, compare_endpoints_desc]

/-- Helper: with pairwise-distinct URLs, ascending-sorted reversed equals
descending-sorted, because both are sorted permutations for a strict (hence
antisymmetric) relation. -/
theorem sortEndpoints_reverse_eq (es : List Endpoint)
    (hnd : (es.map Endpoint.url).Nodup) :
    (sortEndpoints false es).reverse = sortEndpoints true es := by
  have pA := sortEndpoints_perm false es
  have pD := sortEndpoints_perm true es
  have hperm : ((sortEndpoints false es).reverse).Perm (sortEndpoints true es) :=
    (((sortEndpoints false es).reverse_perm).trans pA).trans pD.symm
  have ndA : ((sortEndpoints false es).map Endpoint.url).Nodup :=
    ((pA.map Endpoint.url).nodup_iff).mpr hnd
  have ndD : ((sortEndpoints true es).map Endpoint.url).Nodup :=
    ((pD.map Endpoint.url).nodup_iff).mpr hnd
  have pwNeA : (sortEndpoints false es).Pairwise (fun a b => a.url ≠ b.url) :=
    List.pairwise_map.mp ndA
  have pwNeD : (sortEndpoints true es).Pairwise (fun a b => a.url ≠ b.url) :=
    List.pairwise_map.mp ndD
  have pwA : (sortEndpoints false es).Pairwise
      (fun a b => strcmpO a.url.data b.url.data ≠ Ordering.gt) :=
    (sortEndpoints_pairwise false es).imp (fun h => (endpointLe_false_iff _ _).mp h)
  have pwD : (sortEndpoints true es).Pairwise
      (fun a b => strcmpO b.url.data a.url.data ≠ Ordering.gt) :=
    (sortEndpoints_pairwise true es).imp (fun h => (endpointLe_true_iff _ _).mp h)
  have sA : (sortEndpoints false es).Pairwise
      (fun a b => strcmpO a.url.data b.url.data = Ordering.lt) :=
    List.Pairwise.imp₂ (fun _ _ hle hne => strcmpO_ne_gt_strict hle hne) pwA pwNeA
  have sD : (sortEndpoints true es).Pairwise
      (fun a b => strcmpO b.url.data a.url.data = Ordering.lt) :=
    List.Pairwise.imp₂ (fun _ _ hle hne => strcmpO_ne_gt_strict hle (Ne.symm hne)) pwD pwNeD
  have sRev : ((sortEndpoints false es).reverse).Pairwise
      (fun a b => strcmpO b.url.data a.url.data = Ordering.lt) :=
    List.pairwise_reverse.mpr sA
  haveI : IsAntisymm Endpoint (fun a b => strcmpO b.url.data a.url.data = Ordering.lt) := by
    refine ⟨fun a b hab hba => ?_⟩
    have hs := strcmpO_swap a.url.data b.url.data
    rw [hab, hba] at hs
    exact absurd hs (by decide)
  exact List.eq_of_perm_of_sorted hperm sRev sD

/-- C3: the emitted report sequence is a permutation of the collected set,
sorted by URL under lexicographic byte comparison in the configured
direction (ascending by default, descending if configured); and for the same
input set, sorting ascending and then reversing equals sorting descending. -/
theorem report_sorted_roundtrip (sort_desc : Bool) (es : List Endpoint) :
    (sortEndpoints sort_desc es).Perm es
  ∧ (sortEndpoints sort_desc es).Pairwise (fun a b =>
      (if sort_desc then compare_endpoints_desc a b else compare_endpoints_asc a b)
        ≠ Ordering.gt)
  ∧ ((es.map Endpoint.url).Nodup →
      (sortEndpoints false es).reverse = sortEndpoints true es) := by
  refine ⟨sortEndpoints_perm sort_desc es, ?_, sortEndpoints_reverse_eq es⟩
  cases sort_desc
  · exact (sortEndpoints_pairwise false es).imp
      (fun h => by simpa using (endpointLe_false_iff _ _).mp h)
  · exact (sortEndpoints_pairwise true es).imp
      (fun h => by simpa using (endpointLe_true_iff _ _).mp h)

unseal List.merge List.mergeSort in
/-- Witness for C3: a concrete two-endpoint list with distinct URLs, sorted
both ways. -/
theorem report_sorted_roundtrip_witness :
    (([⟨"b", "GET", []⟩, ⟨"a", "GET", []⟩] : List Endpoint).map Endpoint.url).Nodup
  ∧ (sortEndpoints false [⟨"b", "GET", []⟩, ⟨"a", "GET", []⟩]).reverse =
      sortEndpoints true [⟨"b", "GET", []⟩, ⟨"a", "GET", []⟩] :=
  ⟨by decide,
   (report_sorted_roundtrip false [⟨"b", "GET", []⟩, ⟨"a", "GET", []⟩]).2.2 (by decide)⟩

unseal List.merge List.mergeSort in
example :
    sortEndpoints true [⟨"a", "GET", []⟩, ⟨"b", "GET", []⟩] =
      [⟨"b", "GET", []⟩, ⟨"a", "GET", []⟩] := by decide

/-- Minimal model of the jansson JSON values flowing through
`process_domain`: null, booleans, numbers, strings and arrays (objects never
occur in inbound CDX payloads). -/
inductive Json where
  | null : Json
  | bool : Bool → Json
  | num : Int → Json
  | str : String → Json
  | arr : List Json → Json

/-- Model of `json_string_value`: `some` for a string value, `none` (a NULL
pointer in C) otherwise. -/
def jsonStringValue : Json → Option String
  | .str s => some s
  | _ => none

/-- Loop state of `process_domain`: the seen-URL set and the endpoint
accumulator (src/wayback_recon.c lines 225-229). -/
structure LoopState where
  seen : List String
  endpoints : List Endpoint
deriving DecidableEq

/-- Model of the per-row body of the row loop
(src/wayback_recon.c lines 283-338): a row that is not an array, has fewer
than 4 cells, or whose first cell is not a string, is skipped; otherwise the
URL goes through `add_url`, and on first sight an endpoint record is
appended with the inferred method and extracted parameters. -/
def processRow (st : LoopState) (row : Json) : LoopState :=
  match row with
  | .arr cells =>
    if cells.length < 4 then st
    else
      match (cells[0]?).bind jsonStringValue with
      | none => st
      | some original =>
        let mimetype := (cells[3]?).bind jsonStringValue
        let r := add_url st.seen (some original)
        if r.1 then
          { seen := r.2,
            endpoints := st.endpoints ++
              [{ url := original,
                 method := infer_method (some original) mimetype,
                 params := extract_params original }] }
        else st
  | _ => st

/-- Model of one page of the row loop: the first element of the payload is a
header row and is skipped (the C loop starts at index 1), the remaining rows
are processed in order. -/
def processPage (st : LoopState) (rows : List Json) : LoopState :=
  (rows.drop 1).foldl processRow st

/-- Model of the resume-key update (src/wayback_recon.c lines 341-349): the
key is taken from the last cell of the last row when that row is a non-empty
array and the cell holds a non-empty string different from "null";
otherwise the key stays cleared and the loop ends. -/
def nextResumeKey (rows : List Json) : Option String :=
  match rows.getLast? with
  | some (.arr cells) =>
    match cells.getLast? with
    | some cell =>
      match jsonStringValue cell with
      | some key => if key ≠ "" ∧ key ≠ "null" then some key else none
      | none => none
    | none => none
  | _ => none

/-- Model of the `do ... while (resume_key)` page loop of `process_domain`
(src/wayback_recon.c lines 231-353). The transport, JSON decoding and
emptiness checks are collapsed into `fetch`: `none` models a transport
failure, an empty body or a parse error for the request issued with the
given resume key. `fuel` bounds the number of iterations so the model is
total; the returned list records, in order, the resume key of every request
actually issued. -/
def runLoop (fuel : Nat) (fetch : Option String → Option Json)
    (resume : Option String) (st : LoopState) : LoopState × List (Option String) :=
  match fuel with
  | 0 => (st, [])
  | fuel + 1 =>
    match fetch resume with
    | none => (st, [resume])
    | some (.arr rows) =>
      if rows.length < 2 then (st, [resume])
      else
        match nextResumeKey rows with
        | none => (processPage st rows, [resume])
        | some key =>
          ((runLoop fuel fetch (some key) (processPage st rows)).1,
            resume :: (runLoop fuel fetch (some key) (processPage st rows)).2)
    | some _ => (st, [resume])

/-- Model of the tail of `process_domain`: after the loop, sort the
accumulated endpoints in the configured direction; the sorted sequence is
what the report serializes. -/
def process_domain_report (fuel : Nat) (fetch : Option String → Option Json)
    (sort_desc : Bool) : List Endpoint :=
  sortEndpoints sort_desc (runLoop fuel fetch none ⟨[], []⟩).1.endpoints

/-- Helper: appending a fresh element keeps a list duplicate-free. -/
theorem nodup_append_singleton {α : Type} {l : List α} {a : α} (h : l.Nodup) (ha : a ∉ l) :
    (l ++ [a]).Nodup := by
  simp [List.nodup_append, h, ha]

/-- Helper: `processRow` preserves the loop invariant: the seen set lists
exactly the collected endpoint URLs, without duplicates. -/
theorem processRow_inv (st : LoopState) (row : Json)
    (h1 : st.seen = st.endpoints.map Endpoint.url) (h2 : st.seen.Nodup) :
    (processRow st row).seen = (processRow st row).endpoints.map Endpoint.url
  ∧ (processRow st row).seen.Nodup := by
  cases row with
  | arr cells =>
    rw [processRow]
    by_cases hl : cells.length < 4
    · rw [if_pos hl]
      exact ⟨h1, h2⟩
    rw [if_neg hl]
    cases ho : (cells[0]?).bind jsonStringValue with
    | none => exact ⟨h1, h2⟩
    | some original =>
      simp only []
      by_cases he : original = ""
      · simp only [add_url, he, if_pos rfl]
        exact ⟨h1, h2⟩
      by_cases hm : original ∈ st.seen
      · simp only [add_url, if_neg he, if_pos hm]
        exact ⟨h1, h2⟩
      · simp only [add_url, if_neg he, if_neg hm]
        refine ⟨?_, nodup_append_singleton h2 hm⟩
        simp [h1]
  | null => exact ⟨h1, h2⟩
  | bool b => exact ⟨h1, h2⟩
  | num n => exact ⟨h1, h2⟩
  | str s => exact ⟨h1, h2⟩

/-- Helper: folding `processRow` over any row list preserves the loop
invariant. -/
theorem foldl_processRow_inv (rows : List Json) (st : LoopState)
    (h1 : st.seen = st.endpoints.map Endpoint.url) (h2 : st.seen.Nodup) :
    (rows.foldl processRow st).seen = (rows.foldl processRow st).endpoints.map Endpoint.url
  ∧ (rows.foldl processRow st).seen.Nodup := by
  induction rows generalizing st with
  | nil => exact ⟨h1, h2⟩
  | cons r rest ih =>
    rw [List.foldl_cons]
    obtain ⟨g1, g2⟩ := processRow_inv st r h1 h2
    exact ih _ g1 g2

/-- Helper: the whole page loop preserves the loop invariant. -/
theorem runLoop_inv (fuel : Nat) (fetch : Option String → Option Json)
    (resume : Option String) (st : LoopState)
    (h1 : st.seen = st.endpoints.map Endpoint.url) (h2 : st.seen.Nodup) :
    (runLoop fuel fetch resume st).1.seen =
      (runLoop fuel fetch resume st).1.endpoints.map Endpoint.url
  ∧ (runLoop fuel fetch resume st).1.seen.Nodup := by
  induction fuel generalizing resume st with
  | zero => exact ⟨h1, h2⟩
  | succ n ih =>
    rw [runLoop]
    cases hf : fetch resume with
    | none => exact ⟨h1, h2⟩
    | some j =>
      cases j with
      | arr rows =>
        dsimp only
        by_cases hl : rows.length < 2
        · rw [if_pos hl]
          exact ⟨h1, h2⟩
        rw [if_neg hl]
        cases hk : nextResumeKey rows with
        | none => exact foldl_processRow_inv _ _ h1 h2
        | some key =>
          obtain ⟨g1, g2⟩ := foldl_processRow_inv (rows.drop 1) st h1 h2
          exact ih (some key) (processPage st rows) g1 g2
      | null => exact ⟨h1, h2⟩
      | bool b => exact ⟨h1, h2⟩
      | num m => exact ⟨h1, h2⟩
      | str s => exact ⟨h1, h2⟩

/-- C2: within one domain run the first `add_url` observation of a non-empty
URL returns true and records it, a second observation of an identical string
returns false and leaves the set unchanged, a null or empty input returns
false without recording, and consequently the endpoint records accumulated
by the page loop never repeat a URL. -/
theorem dedup_observe (s : List String) (u : String) (fuel : Nat)
    (fetch : Option String → Option Json) :
    add_url s none = (false, s)
  ∧ add_url s (some "") = (false, s)
  ∧ (u ≠ "" → u ∉ s → add_url s (some u) = (true, s ++ [u]))
  ∧ (u ∈ s → add_url s (some u) = (false, s))
  ∧ ((runLoop fuel fetch none ⟨[], []⟩).1.endpoints.map Endpoint.url).Nodup := by
  refine ⟨rfl, by simp [add_url], ?_, ?_, ?_⟩
  · intro hne hnm
    simp [add_url, hne, hnm]
  · intro hm
    by_cases he : u = ""
    · simp [add_url, he]
    · simp [add_url, he, hm]
  · obtain ⟨g1, g2⟩ := runLoop_inv fuel fetch none ⟨[], []⟩ rfl List.nodup_nil
    rw [← g1]
    exact g2

/-- Witness for C2: fresh, repeated and empty observations on a concrete
set, and a concrete loop run. -/
theorem dedup_observe_witness :
    ("x" ≠ "" ∧ "x" ∉ (["a"] : List String) ∧ add_url ["a"] (some "x") = (true, ["a", "x"]))
  ∧ ("a" ∈ (["a"] : List String) ∧ add_url ["a"] (some "a") = (false, ["a"])) :=
  ⟨⟨by decide, by decide,
    (dedup_observe ["a"] "x" 0 (fun _ => none)).2.2.1 (by decide) (by decide)⟩,
   ⟨by decide, (dedup_observe ["a"] "a" 0 (fun _ => none)).2.2.2.1 (by decide)⟩⟩

/-- C8: a malformed row — not an array, an array with fewer than 4 cells, or
one whose first cell is not a string — is skipped without changing the loop
state, processing continues with the rows after it, and the header row at
index 0 of a page is never observed at all. -/
theorem malformed_row_skipped (st : LoopState) (row : Json) (rest rows : List Json)
    (h₁ h₂ : Json)
    (hbad : (∀ cells, row ≠ Json.arr cells)
       ∨ (∃ cells, row = Json.arr cells ∧ cells.length < 4)
       ∨ (∃ cells, row = Json.arr cells ∧ (cells[0]?).bind jsonStringValue = none)) :
    processRow st row = st
  ∧ (row :: rest).foldl processRow st = rest.foldl processRow st
  ∧ processPage st (h₁ :: rows) = processPage st (h₂ :: rows) := by
  have hskip : processRow st row = st := by
    rcases hbad with hna | ⟨cells, hcell, hlen⟩ | ⟨cells, hcell, hnone⟩
    · cases row with
      | arr cells => exact absurd rfl (hna cells)
      | null => rfl
      | bool b => rfl
      | num n => rfl
      | str s => rfl
    · subst hcell
      rw [processRow, if_pos hlen]
    · subst hcell
      rw [processRow]
      by_cases hlen : cells.length < 4
      · rw [if_pos hlen]
      · rw [if_neg hlen, hnone]
  refine ⟨hskip, ?_, rfl⟩
  rw [List.foldl_cons, hskip]

/-- Witness for C8: a null row in front of an empty tail, and two different
header rows. -/
theorem malformed_row_skipped_witness :
    processRow ⟨[], []⟩ Json.null = ⟨[], []⟩
  ∧ ([Json.null] : List Json).foldl processRow ⟨[], []⟩ =
      ([] : List Json).foldl processRow ⟨[], []⟩
  ∧ processPage ⟨[], []⟩ [Json.null] = processPage ⟨[], []⟩ [Json.bool true] :=
  malformed_row_skipped ⟨[], []⟩ Json.null [] [] Json.null (Json.bool true)
    (Or.inl (fun _ h => Json.noConfusion h))

/-- C5: a page whose last row has no trailing string cell, or whose trailing
cell is the empty string or the literal string "null", clears the
continuation token, and the page loop then terminates after this page: the
request that fetched it is the last request issued. -/
theorem pagination_terminates (rows : List Json) (fuel : Nat)
    (fetch : Option String → Option Json) (resume : Option String) (st : LoopState)
    (hbad : (∀ cells, rows.getLast? ≠ some (Json.arr cells))
       ∨ (∃ cells, rows.getLast? = some (Json.arr cells) ∧ (cells.getLast? = none
            ∨ ∃ c, cells.getLast? = some c ∧ (jsonStringValue c = none
                 ∨ jsonStringValue c = some "" ∨ jsonStringValue c = some "null")))) :
    nextResumeKey rows = none
  ∧ (fetch resume = some (Json.arr rows) → ¬rows.length < 2 →
      runLoop (fuel + 1) fetch resume st = (processPage st rows, [resume])) := by
  have hnone : nextResumeKey rows = none := by
    rw [nextResumeKey]
    rcases hbad with hna | ⟨cells, hcl, hrest⟩
    · cases hl : rows.getLast? with
      | none => rfl
      | some j =>
        cases j with
        | arr cells => exact absurd hl (hna cells)
        | null => rfl
        | bool b => rfl
        | num n => rfl
        | str s => rfl
    · rw [hcl]
      dsimp only
      rcases hrest with hcn | ⟨c, hcs, hv⟩
      · rw [hcn]
      · rw [hcs]
        dsimp only
        rcases hv with hv | hv | hv
        · rw [hv]
        · rw [hv]
          decide
        · rw [hv]
          decide
  refine ⟨hnone, fun hf hl => ?_⟩
  rw [runLoop]
  rw [hf]
  dsimp only
  rw [if_neg hl, hnone]

/-- Witness for C5: a two-row page ending in a "null" sentinel row stops the
loop after a single request. -/
theorem pagination_terminates_witness :
    nextResumeKey [Json.arr [Json.str "h"], Json.arr [Json.str "null"]] = none
  ∧ runLoop 1
      (fun _ => some (Json.arr [Json.arr [Json.str "h"], Json.arr [Json.str "null"]]))
      none ⟨[], []⟩ =
      (processPage ⟨[], []⟩ [Json.arr [Json.str "h"], Json.arr [Json.str "null"]], [none]) := by
  have h := pagination_terminates [Json.arr [Json.str "h"], Json.arr [Json.str "null"]] 0
    (fun _ => some (Json.arr [Json.arr [Json.str "h"], Json.arr [Json.str "null"]]))
    none ⟨[], []⟩
    (Or.inr ⟨[Json.str "null"], rfl, Or.inr ⟨Json.str "null", rfl, Or.inr (Or.inr rfl)⟩⟩)
  exact ⟨h.1, h.2 rfl (by decide)⟩

/-- Synthetic page 1 for the two-page scenario: header row, URLs A and B,
and a resume-key row carrying "tok". -/
def pageOne : List Json :=
  [Json.arr [Json.str "original", Json.str "timestamp", Json.str "statuscode",
     Json.str "mimetype"],
   Json.arr [Json.str "http://x.com/a", Json.str "20240101", Json.str "200",
     Json.str "text/html"],
   Json.arr [Json.str "http://x.com/b", Json.str "20240102", Json.str "200",
     Json.str "text/html"],
   Json.arr [Json.str "tok"]]

/-- Synthetic page 2 for the two-page scenario: header row, URL B again, URL
C, and a "null" sentinel row signalling no further pages. -/
def pageTwo : List Json :=
  [Json.arr [Json.str "original", Json.str "timestamp", Json.str "statuscode",
     Json.str "mimetype"],
   Json.arr [Json.str "http://x.com/b", Json.str "20240103", Json.str "200",
     Json.str "text/html"],
   Json.arr [Json.str "http://x.com/c", Json.str "20240104", Json.str "200",
     Json.str "text/html"],
   Json.arr [Json.str "null"]]

/-- Synthetic transport for the two-page scenario: the first request (no
resume key) yields page 1, the request with key "tok" yields page 2. -/
def fetchTwoPages : Option String → Option Json
  | none => some (Json.arr pageOne)
  | some k => if k = "tok" then some (Json.arr pageTwo) else none

unseal List.merge List.mergeSort in
/-- C6: in the two-page run where page 1 yields A and B plus a continuation
token and page 2 yields B (a repeat) and C with no token, exactly two
requests are issued and the final report contains exactly the records of A,
B and C, with B appearing once, ordered per the configured sort direction. -/
theorem two_page_end_to_end :
    (runLoop 5 fetchTwoPages none ⟨[], []⟩).2 = [none, some "tok"]
  ∧ process_domain_report 5 fetchTwoPages false =
      [⟨"http://x.com/a", "GET", []⟩, ⟨"http://x.com/b", "GET", []⟩,
       ⟨"http://x.com/c", "GET", []⟩]
  ∧ process_domain_report 5 fetchTwoPages true =
      [⟨"http://x.com/c", "GET", []⟩, ⟨"http://x.com/b", "GET", []⟩,
       ⟨"http://x.com/a", "GET", []⟩] := by
  refine ⟨by decide, by decide, by decide⟩

/-- Model of the serialization loop of `process_domain`
(src/wayback_recon.c lines 367-387). `dump` abstracts `json_dumps` on one
endpoint record: `none` models a NULL return (formatting failure). The loop
walks the records with their index `i`; on success it writes ",\n" when
`i > 0` and then the record text, on failure it writes nothing for this
record and continues. -/
def serializeBodyAux (dump : Endpoint → Option String) : Nat → List Endpoint → String
  | _, [] => ""
  | i, e :: rest =>
    (match dump e with
     | some s => (if 0 < i then ",\n" else "") ++ s
     | none => "") ++ serializeBodyAux dump (i + 1) rest

/-- Model of the full artifact written by `process_domain`: opening bracket
line, the record bodies, closing bracket line. -/
def serializeReport (dump : Endpoint → Option String) (es : List Endpoint) : String :=
  "[\n" ++ serializeBodyAux dump 0 es ++ "\n]"

/-- Plain concatenation of a list of strings. -/
def joinAll : List String → String
  | [] => ""
  | s :: rest => s ++ joinAll rest

/-- Comma-separated join: the shape of a well-formed JSON array body whose
elements are exactly the given parts. -/
def joinComma : List String → String
  | [] => ""
  | [s] => s
  | s :: rest => s ++ ",\n" ++ joinComma rest

/-- Restatement of the report in the words of the spec: the artifact is the
well-formed JSON array whose elements are exactly the successfully formatted
records, in order. -/
def serializeSpec (dump : Endpoint → Option String) (es : List Endpoint) : String :=
  "[\n" ++ joinComma (es.filterMap dump) ++ "\n]"

/-- Helper: from index 1 on, every surviving record is written with a
leading comma. -/
theorem serializeBodyAux_pos (dump : Endpoint → Option String) :
    ∀ (es : List Endpoint) (i : Nat), 0 < i →
      serializeBodyAux dump i es = joinAll ((es.filterMap dump).map (fun s => ",\n" ++ s))
  | [], _, _ => rfl
  | e :: rest, i, h => by
    rw [serializeBodyAux]
    cases hd : dump e with
    | none =>
      rw [List.filterMap_cons_none hd, String.empty_append]
      exact serializeBodyAux_pos dump rest (i + 1) (by omega)
    | some s =>
      rw [List.filterMap_cons_some hd, if_pos h, List.map_cons, joinAll,
        serializeBodyAux_pos dump rest (i + 1) (by omega), String.append_assoc]

/-- Helper: comma-join in terms of plain join with leading commas. -/
theorem joinComma_cons (s : String) (l : List String) :
    joinComma (s :: l) = s ++ joinAll (l.map (fun t => ",\n" ++ t)) := by
  cases l with
  | nil => rw [joinComma, List.map_nil, joinAll, String.append_empty]
  | cons t rest =>
    show s ++ ",\n" ++ joinComma (t :: rest) = _
    rw [List.map_cons, joinAll, joinComma_cons t rest, String.append_assoc,
      String.append_assoc]

/-- Counterexample for C7 as stated: when the first record's formatting
fails and a later record's succeeds, the loop still writes the separating
comma (the check is `i > 0`, not "something was already written"), so the
artifact opens with a stray comma and is not the well-formed array of the
surviving records. -/
theorem serialize_first_record_failure :
    serializeReport (fun e => if e.url = "a" then none else some "x")
        [⟨"a", "GET", []⟩, ⟨"b", "GET", []⟩] = "[\n,\nx\n]"
  ∧ serializeReport (fun e => if e.url = "a" then none else some "x")
        [⟨"a", "GET", []⟩, ⟨"b", "GET", []⟩] ≠
      serializeSpec (fun e => if e.url = "a" then none else some "x")
        [⟨"a", "GET", []⟩, ⟨"b", "GET", []⟩] :=
  ⟨by decide, by decide⟩

/-- C7 (amended): a record whose formatting step fails is skipped without
any partial write, the failure is non-fatal, and serialization of the
remaining records continues; the artifact equals the well-formed JSON array
of the successfully formatted records whenever the first record's formatting
succeeds or no record formats at all (a failure on the first record combined
with a later success leaves a stray leading comma). -/
theorem serialize_skip_continue (dump : Endpoint → Option String) (es : List Endpoint)
    (h : (∀ e, es.head? = some e → dump e ≠ none) ∨ (∀ e ∈ es, dump e = none)) :
    serializeReport dump es = serializeSpec dump es := by
  cases es with
  | nil => rfl
  | cons e rest =>
    rw [serializeReport, serializeSpec, serializeBodyAux]
    rcases h with h | h
    · cases hd : dump e with
      | none => exact absurd hd (h e rfl)
      | some s =>
        dsimp only
        rw [List.filterMap_cons_some hd, if_neg (by omega : ¬0 < 0), String.empty_append,
          serializeBodyAux_pos dump rest (0 + 1) (by omega), joinComma_cons]
    · have hd : dump e = none := h e (by simp)
      have hrest : rest.filterMap dump = [] :=
        List.filterMap_eq_nil_iff.mpr (fun a ha => h a (by simp [ha]))
      rw [List.filterMap_cons_none hd, hd, String.empty_append,
        serializeBodyAux_pos dump rest (0 + 1) (by omega), hrest]
      exact rfl

/-- Witness for C7: with a formatter that succeeds on every record, the
artifact is the comma-joined array of the records. -/
theorem serialize_skip_continue_witness :
    serializeReport (fun _ => some "x") [⟨"a", "GET", []⟩, ⟨"b", "GET", []⟩] =
      serializeSpec (fun _ => some "x") [⟨"a", "GET", []⟩, ⟨"b", "GET", []⟩] :=
  serialize_skip_continue _ _ (Or.inl (fun _ _ hc => Option.noConfusion hc))
